import Mathlib

/-!
Shallow embedding of the locker backend (src/app.py, src/db.py) and proofs
of the specification claims.

Modelling conventions:
* Python strings are Lean `String`s; helper string functions from the
  standard library that the source calls (werkzeug's secure_filename,
  os.path.splitext, os.path.basename, str.strip/lower/split) are embedded
  below, faithful on ASCII input.
* MongoDB documents are association lists `List (String × PyVal)` where
  `PyVal` mirrors the Python value universe that actually occurs, including
  the internal types `ObjectId` and `datetime` (modelled as `Nat` tags).
* `datetime.utcnow()` values are abstract `Nat` ticks supplied by the
  caller; `isoformat` is an injective rendering into a string.
* The filesystem under UPLOAD_FOLDER is the list of file names present;
  `os.path.exists(os.path.join(UPLOAD_FOLDER, name))` holds iff the name is
  present or the name is empty (the join then denotes the folder itself,
  which exists: app.py calls os.makedirs at startup).
* Side-effecting handlers return a result together with the list of
  store-mutating effects in program order; states are obtained by executing
  the effect list.
-/

namespace FlaskLocker

/-! ### Decimal rendering of naturals (Python str(n) on an int / ObjectId) -/

/-- One decimal digit as a character. -/
def digitChar (d : Nat) : Char :=
  if d = 0 then '0' else if d = 1 then '1' else if d = 2 then '2'
  else if d = 3 then '3' else if d = 4 then '4' else if d = 5 then '5'
  else if d = 6 then '6' else if d = 7 then '7' else if d = 8 then '8'
  else if d = 9 then '9' else '0'

/-- Little-endian decimal digits of `n`, with explicit fuel (fuel `n` suffices). -/
def decDigits : Nat → Nat → List Nat
  | 0, _ => []
  | _ + 1, 0 => []
  | fuel + 1, n + 1 => ((n + 1) % 10) :: decDigits fuel ((n + 1) / 10)

/-- Decimal rendering of a natural number, as Python's str(n). -/
def decStr (n : Nat) : String :=
  if n = 0 then "0" else ⟨((decDigits n n).map digitChar).reverse⟩

/-! ### Embedded Python string helpers -/

/-- Characters kept by werkzeug's filename sanitizer: [A-Za-z0-9_.-]. -/
def charAllowed (c : Char) : Bool :=
  c.isAlpha || c.isDigit || c == '_' || c == '.' || c == '-'

/-- Remove trailing characters satisfying p (Python str.rstrip). -/
def rstripChars (p : Char → Bool) : List Char → List Char
  | [] => []
  | c :: cs =>
    match rstripChars p cs with
    | [] => if p c then [] else [c]
    | r => c :: r

/-- Remove leading and trailing characters satisfying p (Python str.strip(chars)). -/
def stripChars (p : Char → Bool) (l : List Char) : List Char :=
  rstripChars p (l.dropWhile p)

/-- Python str.split() with no argument: split on whitespace runs, no empties. -/
def splitWsAux : List Char → List Char → List (List Char)
  | [], acc => if acc.isEmpty then [] else [acc.reverse]
  | c :: cs, acc =>
    if c.isWhitespace then
      if acc.isEmpty then splitWsAux cs [] else acc.reverse :: splitWsAux cs []
    else splitWsAux cs (c :: acc)

/-- The character list of werkzeug's secure_filename before the final
strip("._"): drop non-ASCII, turn '/' into spaces, split on whitespace,
join with underscores, and remove every character outside [A-Za-z0-9_.-]. -/
def preStripName (s : String) : List Char :=
  (List.intercalate ['_'] (splitWsAux ((s.data.filter (fun c => c.toNat < 128)).map
    (fun c => if c = '/' then ' ' else c)) [])).filter charAllowed

/-- werkzeug.utils.secure_filename on a POSIX system.  The
NFKD-normalise-then-encode-ascii-ignore step is the identity on ASCII
characters and is modelled by dropping non-ASCII characters; all inputs used
in witnesses below are pure ASCII, where this is exact. -/
def secureFilename (s : String) : String :=
  ⟨stripChars (fun c => c == '.' || c == '_') (preStripName s)⟩

/-- Index of the last '.' in a character list (Python str.rfind(".")). -/
def rfindDot : List Char → Option Nat
  | [] => none
  | c :: cs =>
    match rfindDot cs with
    | some i => some (i + 1)
    | none => if c = '.' then some 0 else none

/-- os.path.splitext for names containing no directory separator: split at
the last dot unless every character before it is a dot. -/
def splitextData (l : List Char) : List Char × List Char :=
  match rfindDot l with
  | none => (l, [])
  | some i => if (l.take i).all (fun c => c == '.') then (l, []) else (l.take i, l.drop i)

/-- os.path.splitext on strings. -/
def splitext (s : String) : String × String :=
  (⟨(splitextData s.data).1⟩, ⟨(splitextData s.data).2⟩)

/-- The extension part of a filename, as os.path.splitext returns it. -/
def extOf (s : String) : String := (splitext s).2

/-- os.path.basename: the part after the last '/'. -/
def basename (s : String) : String :=
  ⟨(s.data.reverse.takeWhile (fun c => c ≠ '/')).reverse⟩

/-- Python str.lower on ASCII. -/
def lowerStr (s : String) : String := ⟨s.data.map Char.toLower⟩

/-- Python str.strip() with no argument: trim whitespace at both ends. -/
def pyStrip (s : String) : String := ⟨stripChars (fun c => c.isWhitespace) s.data⟩

/-- Python membership test c in s for a single character. -/
def pyContains (s : String) (c : Char) : Bool := s.data.contains c

/-! ### The name-resolution loop (app.py lines 242-251) -/

/-- os.path.exists(os.path.join(UPLOAD_FOLDER, name)) given the list of
file names present in the folder: true when the name is one of the files or
when the name is empty (the join is then the folder itself, which exists). -/
def pathExists (names : List String) (s : String) : Bool :=
  names.contains s || s == ""

/-- The k-th collision candidate built in the loop body:
filename = f-string of base, underscore, counter, ext. -/
def candName (base ext : String) (k : Nat) : String :=
  base ++ "_" ++ decStr k ++ ext

/-- The while-loop of the collision-avoidance code: try base_k ext,
base_(k+1) ext, ... until a name not present is found.  Fuel bounds the
number of iterations; fuel names.length + 1 always suffices (proved below),
and on exhaustion the current candidate is returned. -/
def resolveFrom (base ext : String) (names : List String) : Nat → Nat → String
  | 0, k => candName base ext k
  | fuel + 1, k =>
    if pathExists names (candName base ext k) then resolveFrom base ext names fuel (k + 1)
    else candName base ext k

/-- Filename collision resolution exactly as in add_locker_item /
upload_photo: keep the sanitized name if its path does not exist, otherwise
append _1, _2, ... -/
def resolveName (filename : String) (names : List String) : String :=
  if pathExists names filename then
    resolveFrom (splitext filename).1 (splitext filename).2 names (names.length + 1) 1
  else filename

example : secureFilename "virus.exe" = "virus.exe" := by decide
example : secureFilename "../../" = "" := by decide
example : splitext "archive.tar.gz" = ("archive.tar", ".gz") := by decide
example : splitext ".bashrc" = (".bashrc", "") := by decide
example : resolveName "a.txt" ["a.txt", "a_1.txt"] = "a_2.txt" := by decide
example : resolveName "a.txt" ["b.txt"] = "a.txt" := by decide
example : resolveName "" [] = "_1" := by decide
example : basename "/uploads/a.txt" = "a.txt" := by decide

/-! ### Python/Mongo value universe and documents -/

/-- The Python values that occur in the documents this app builds and
serializes.  pobjectId and pdatetime are the internal bson.ObjectId and
datetime.datetime types (tagged by a Nat); everything else is a JSON
primitive. -/
inductive PyVal : Type where
  | pstr : String → PyVal
  | pnull : PyVal
  | pint : Int → PyVal
  | plist : List PyVal → PyVal
  | pobjectId : Nat → PyVal
  | pdatetime : Nat → PyVal
deriving Repr

/-- A Python dict / Mongo document, as an association list (later bindings
do not occur twice for the keys this app uses). -/
abbrev Doc : Type := List (String × PyVal)

/-- Python dict lookup d[k] / d.get(k) returning None on absence is the
Option-valued lookup of the first binding. -/
def lookupVal (d : Doc) (k : String) : Option PyVal :=
  match d with
  | [] => none
  | (k1, v) :: rest => if k1 = k then some v else lookupVal rest k

/-- d.get(k): absence becomes Python None. -/
def pyGet (d : Doc) (k : String) : PyVal :=
  (lookupVal d k).getD .pnull

/-- The keys of a document, in order. -/
def docKeys (d : Doc) : List String := d.map Prod.fst

/-- Python truthiness of the values above (empty string, empty list, None
and zero are falsy; ObjectId and datetime values are truthy). -/
def isTruthy : PyVal → Bool
  | .pstr s => s ≠ ""
  | .pnull => false
  | .pint n => n ≠ 0
  | .plist l => !l.isEmpty
  | .pobjectId _ => true
  | .pdatetime _ => true

/-- Whether a serialized value is a JSON primitive (no internal ObjectId or
datetime anywhere); one level of list nesting suffices for this app's
documents. -/
def primTop : PyVal → Bool
  | .pstr _ => true
  | .pnull => true
  | .pint _ => true
  | .plist l =>
    l.all fun v =>
      match v with
      | .pstr _ => true
      | .pnull => true
      | .pint _ => true
      | _ => false
  | .pobjectId _ => false
  | .pdatetime _ => false

/-- datetime.isoformat(), abstracted to an injective rendering of the tick. -/
def isoStr (n : Nat) : String := "iso:" ++ decStr n

/-! ### Application state and store effects -/

/-- A registered account document in users_collection (register builds
exactly these fields; oid is the store-assigned _id). -/
structure UserDoc : Type where
  name : String
  email : String
  password : String
  photo : Option String
  created_at : Nat
  oid : Nat
deriving DecidableEq, Repr

/-- The mutable stores: the UPLOAD_FOLDER directory contents, the
locker_collection, the users_collection, and the next ObjectId the store
will assign. -/
structure AppState : Type where
  uploads : List String
  locker : List Doc
  users : List UserDoc
  nextId : Nat

/-- Store-mutating effects of a request handler, in program order. -/
inductive Effect : Type where
  | writeBlob : String → Effect
  | insertMeta : Doc → Effect
  | removeBlob : String → Bool → Effect
  | deleteMeta : Nat → Effect

/-- The predicate Mongo evaluates for a find/delete filter on _id equal to
ObjectId(itemId), on the documents this app stores. -/
def hasId (itemId : Nat) (d : Doc) : Bool :=
  match lookupVal d "_id" with
  | some (.pobjectId n) => n == itemId
  | _ => false

/-- Execute one effect on the state.  A removeBlob whose Bool flag is false
models an os.remove attempt that raised (the handler swallows it), so the
file stays. -/
def execEffect (st : AppState) : Effect → AppState
  | .writeBlob name => { st with uploads := st.uploads ++ [name] }
  | .insertMeta doc => { st with locker := st.locker ++ [doc], nextId := st.nextId + 1 }
  | .removeBlob name ok =>
    if st.uploads.contains name && ok then { st with uploads := st.uploads.erase name } else st
  | .deleteMeta itemId => { st with locker := st.locker.eraseP (hasId itemId) }

/-- Execute a list of effects in order. -/
def execEffects (st : AppState) (es : List Effect) : AppState := es.foldl execEffect st

/-- The state of a fresh deployment: empty uploads folder, empty
collections. -/
def emptyState : AppState := ⟨[], [], [], 0⟩

/-! ### Allowed-extension helpers (app.py lines 65-70) -/

/-- ALLOWED_IMAGE_EXTENSIONS. -/
def allowedImageExts : List String := ["png", "jpg", "jpeg", "gif"]

/-- ALLOWED_FILE_EXTENSIONS = images plus document types. -/
def allowedFileExts : List String :=
  allowedImageExts ++ ["pdf", "txt", "doc", "docx", "xls", "xlsx", "ppt", "pptx"]

/-- filename.rsplit(".", 1)[1] when "." occurs in filename. -/
def extAfterDot (s : String) : Option String :=
  match rfindDot s.data with
  | none => none
  | some i => some ⟨s.data.drop (i + 1)⟩

/-- allowed_image(filename). -/
def allowedImage (s : String) : Bool :=
  match extAfterDot s with
  | none => false
  | some e => allowedImageExts.contains (lowerStr e)

/-- allowed_file(filename).  Defined in app.py but never called from the
locker upload path. -/
def allowedFile (s : String) : Bool :=
  match extAfterDot s with
  | none => false
  | some e => allowedFileExts.contains (lowerStr e)

example : allowedFile "virus.exe" = false := by decide
example : allowedFile "report.PDF" = true := by decide

/-! ### Locker create (app.py add_locker_item, lines 227-296)

The transport-level branches (content-type dispatch, missing form field)
are routing; the embedding starts at the filename check.  Note that the
handler never calls allowed_file: no extension validation happens on this
path.  The request's tags field, if any, is never read by the handler and
is carried as an ignored argument. -/

/-- Result of a locker create request: the serialized item with HTTP code,
or an error body with HTTP code. -/
inductive LockerResult : Type where
  | created : Doc → Nat → LockerResult
  | failure : String → Nat → LockerResult
deriving Repr

/-- Whether a create result is a success. -/
def isCreated : LockerResult → Bool
  | .created _ _ => true
  | .failure _ _ => false

/-- The multipart/form-data branch of add_locker_item: reject only the
literal empty filename, sanitize, resolve collisions, save the file, insert
the metadata document (which pymongo's insert_one mutates by appending the
assigned _id), then add the stringified id to the response dict. -/
def addLockerFile (st : AppState) (userId declaredFilename : String)
    (formTitle : Option String) (mime : String) (_tagsField : List PyVal) (now : Nat) :
    LockerResult × List Effect :=
  if declaredFilename = "" then (.failure "Empty filename" 400, [])
  else
    let fname := resolveName (secureFilename declaredFilename) st.uploads
    let title :=
      match formTitle with
      | some t => if t = "" then fname else t
      | none => fname
    let oid := st.nextId
    let doc : Doc := [("user_id", .pstr userId), ("type", .pstr "file"),
      ("title", .pstr title), ("file_path", .pstr ("/uploads/" ++ fname)),
      ("mime", .pstr mime), ("tags", .plist []), ("created_at", .pdatetime now)]
    let stored := doc ++ [("_id", .pobjectId oid)]
    (.created (stored ++ [("id", .pstr (decStr oid))]) 201,
      [.writeBlob fname, .insertMeta stored])

/-- The JSON (note) branch of add_locker_item: require non-empty stripped
content, insert the note document, return it with the stringified id. -/
def addLockerNote (st : AppState) (userId : String)
    (jsonTitle jsonContent : Option String) (_tagsField : List PyVal) (now : Nat) :
    LockerResult × List Effect :=
  let content := pyStrip (jsonContent.getD "")
  if content = "" then (.failure "Content required" 400, [])
  else
    let oid := st.nextId
    let doc : Doc := [("user_id", .pstr userId), ("type", .pstr "note"),
      ("title", .pstr (jsonTitle.getD "")), ("content", .pstr content),
      ("tags", .plist []), ("created_at", .pdatetime now)]
    let stored := doc ++ [("_id", .pobjectId oid)]
    (.created (stored ++ [("id", .pstr (decStr oid))]) 201, [.insertMeta stored])

/-! ### Locker list (app.py get_locker_items, lines 301-322) -/

/-- The Mongo filter on user_id equal to the given string. -/
def userFilter (u : String) (r : Doc) : Bool :=
  match lookupVal r "user_id" with
  | some (.pstr s) => s == u
  | _ => false

/-- The created_at sort key; documents without a datetime there sort lowest
(this app always stores a datetime). -/
def createdKey (r : Doc) : Nat :=
  match lookupVal r "created_at" with
  | some (.pdatetime n) => n
  | _ => 0

/-- Mongo's sort("created_at", -1): stable descending sort on created_at. -/
def sortDescCreated (rows : List Doc) : List Doc :=
  rows.mergeSort (fun a b => Nat.ble (createdKey b) (createdKey a))

/-- The rows the list endpoint iterates over, in response order. -/
def lockerRowsFor (st : AppState) (u : String) : List Doc :=
  sortDescCreated (st.locker.filter (userFilter u))

/-- str(r.get("_id")): ObjectIds print as their id, absence prints None. -/
def strOfId : Option PyVal → PyVal
  | some (.pobjectId n) => .pstr (decStr n)
  | _ => .pstr "None"

/-- r.get("created_at").isoformat() if r.get("created_at") else None: a
truthy non-datetime value would raise AttributeError (result none, caught
by the handler's except). -/
def isoField : Option PyVal → Option PyVal
  | some v =>
    if isTruthy v then
      match v with
      | .pdatetime n => some (.pstr (isoStr n))
      | _ => none
    else some .pnull
  | none => some .pnull

/-- The per-row serialization dict of get_locker_items. -/
def serializeRow (r : Doc) : Option Doc :=
  match isoField (lookupVal r "created_at") with
  | none => none
  | some created =>
    some [("id", strOfId (lookupVal r "_id")),
      ("user_id", pyGet r "user_id"), ("type", pyGet r "type"),
      ("title", pyGet r "title"), ("content", pyGet r "content"),
      ("file_path", pyGet r "file_path"), ("mime", pyGet r "mime"),
      ("tags", (lookupVal r "tags").getD (.plist [])),
      ("created_at", created)]

/-- Result of the list endpoint. -/
inductive ListResult : Type where
  | ok : List Doc → Nat → ListResult
  | failure : String → Nat → ListResult
deriving Repr

/-- get_locker_items: serialize every row; an exception while serializing
is caught and becomes a 500 error. -/
def getLockerItems (st : AppState) (u : String) : ListResult :=
  match (lockerRowsFor st u).mapM serializeRow with
  | some items => .ok items 200
  | none => .failure "internal error" 500

/-! ### Locker delete (app.py delete_locker_item, lines 328-348) -/

/-- Result of the delete endpoint. -/
inductive DeleteResult : Type where
  | ok : Nat → DeleteResult
  | failure : String → Nat → DeleteResult
deriving DecidableEq, Repr

/-- obj.get("type") == "file". -/
def isFileDoc (obj : Doc) : Bool :=
  match lookupVal obj "type" with
  | some (.pstr t) => t == "file"
  | _ => false

/-- The blob name the delete handler computes when the removal branch is
taken: obj.get("type") == "file" and obj.get("file_path") truthy, then
os.path.basename of the stored path.  Stored file documents always carry a
string file_path; a missing or falsy value skips the branch. -/
def blobNameOf (obj : Doc) : Option String :=
  if isFileDoc obj then
    match lookupVal obj "file_path" with
    | some (.pstr p) => if p == "" then none else some (basename p)
    | _ => none
  else none

/-- delete_locker_item for a well-formed ObjectId string: 404 when no
document matches; otherwise best-effort blob removal (an os.remove failure
is swallowed as a warning: removeOk false) followed unconditionally by the
metadata delete. -/
def deleteLockerItem (st : AppState) (itemId : Nat) (removeOk : Bool) :
    DeleteResult × List Effect :=
  match st.locker.find? (hasId itemId) with
  | none => (.failure "Not found" 404, [])
  | some obj =>
    match blobNameOf obj with
    | some fname => (.ok 200, [.removeBlob fname removeOk, .deleteMeta itemId])
    | none => (.ok 200, [.deleteMeta itemId])

/-! ### Accounts (app.py register, lines 84-128, and login, lines 134-158) -/

/-- Modelled from the spec: the users collection carries a unique index on
the normalized email ("one metadata collection for accounts (unique index
on normalized email)"; "email uniqueness enforced by the Metadata Store").
The index itself is MongoDB deployment state not present under src/.
insert_one therefore raises DuplicateKeyError (none here) when a document
with the same email is already stored, and otherwise appends the document. -/
def usersInsertOne (users : List UserDoc) (doc : UserDoc) : Option (List UserDoc) :=
  if users.any (fun u => u.email == doc.email) then none
  else some (users ++ [doc])

/-- Result of the register endpoint: stringified id, name, email and HTTP
code on success, error body and code otherwise. -/
inductive RegisterResult : Type where
  | ok : String → String → String → Nat → RegisterResult
  | failure : String → Nat → RegisterResult
deriving DecidableEq, Repr

/-- register: trim name, normalize email (strip + lower), validate
presence, the at-sign policy and the minimum password length, hash the
password, insert; a DuplicateKeyError becomes a 409 response. -/
def register (hash : String → String) (users : List UserDoc) (nextId : Nat)
    (nameIn emailIn passwordIn : Option String) (now : Nat) :
    RegisterResult × List UserDoc :=
  let name := pyStrip (nameIn.getD "")
  let email := lowerStr (pyStrip (emailIn.getD ""))
  let password := passwordIn.getD ""
  if name = "" ∨ email = "" ∨ password = "" then
    (.failure "Missing name/email/password" 400, users)
  else if ¬ pyContains email '@' then (.failure "Invalid email" 400, users)
  else if password.length < 6 then
    (.failure "Password must be at least 6 characters" 400, users)
  else
    let doc : UserDoc := ⟨name, email, hash password, none, now, nextId⟩
    match usersInsertOne users doc with
    | none => (.failure "Email already registered" 409, users)
    | some users1 => (.ok (decStr nextId) name email 201, users1)

/-- Result of the login endpoint. -/
inductive LoginResult : Type where
  | ok : String → String → String → Option String → Nat → LoginResult
  | failure : String → Nat → LoginResult
deriving DecidableEq, Repr

/-- login: normalize the email, look the account up, verify the password
with check_password_hash (abstracted as check).  Unknown email and wrong
password produce the same response. -/
def login (check : String → String → Bool) (users : List UserDoc)
    (emailIn passwordIn : Option String) : LoginResult :=
  let email := lowerStr (pyStrip (emailIn.getD ""))
  let password := passwordIn.getD ""
  if email = "" ∨ password = "" then .failure "Missing email/password" 400
  else
    match users.find? (fun u => u.email == email) with
    | none => .failure "Invalid credentials" 401
    | some u =>
      if !(check u.password password) then .failure "Invalid credentials" 401
      else .ok (decStr u.oid) u.name u.email u.photo 200

/-! ### Helper lemmas -/

/-- After erasing the only match, no match is left. -/
theorem find?_eraseP_eq_none (p : α → Bool) (l : List α) (h : l.countP p ≤ 1) :
    (l.eraseP p).find? p = none := by
  induction l with
  | nil => simp
  | cons a l ih =>
    by_cases hpa : p a
    · rw [List.eraseP_cons_of_pos hpa]
      rw [List.find?_eq_none]
      intro x hx hpx
      have h0 : l.countP p = 0 := by
        rw [List.countP_cons_of_pos p l hpa] at h
        omega
      rw [List.countP_eq_zero] at h0
      exact h0 x hx hpx
    · rw [List.eraseP_cons_of_neg hpa]
      rw [List.find?_cons_of_neg _ hpa]
      apply ih
      rw [List.countP_cons_of_neg p l hpa] at h
      exact h

/-- mapM with Option succeeds on a list where the function succeeds
pointwise, and preserves length. -/
theorem mapM_option_total (f : α → Option β) (l : List α)
    (h : ∀ a ∈ l, ∃ b, f a = some b) :
    ∃ out, l.mapM f = some out ∧ out.length = l.length := by
  induction l with
  | nil => exact ⟨[], rfl, rfl⟩
  | cons a l ih =>
    obtain ⟨b, hb⟩ := h a (List.mem_cons_self a l)
    obtain ⟨out, hout, hlen⟩ := ih (fun x hx => h x (List.mem_cons_of_mem a hx))
    refine ⟨b :: out, ?_, by simp [hlen]⟩
    rw [List.mapM_cons, hb, hout]
    rfl

/-! ### Decimal rendering: injectivity -/

/-- Every digit produced by decDigits is below 10. -/
theorem decDigits_lt (fuel n : Nat) : ∀ d ∈ decDigits fuel n, d < 10 := by
  induction fuel generalizing n with
  | zero => simp [decDigits]
  | succ fuel ih =>
    cases n with
    | zero => simp [decDigits]
    | succ m =>
      intro d hd
      simp only [decDigits, List.mem_cons] at hd
      rcases hd with hd | hd
      · subst hd
        exact Nat.mod_lt _ (by omega)
      · exact ih _ d hd

/-- Value of a little-endian digit list. -/
def decVal (l : List Nat) : Nat := l.foldr (fun d acc => d + 10 * acc) 0

/-- decDigits with enough fuel is a faithful representation. -/
theorem decVal_decDigits (fuel n : Nat) (h : n ≤ fuel) :
    decVal (decDigits fuel n) = n := by
  induction fuel generalizing n with
  | zero =>
    have : n = 0 := by omega
    subst this
    rfl
  | succ fuel ih =>
    cases n with
    | zero => rfl
    | succ m =>
      have hdiv : (m + 1) / 10 ≤ fuel := by
        have := Nat.div_lt_self (show 0 < m + 1 by omega) (show 1 < 10 by omega)
        omega
      have hrec := ih ((m + 1) / 10) hdiv
      simp only [decDigits, decVal, List.foldr] at hrec ⊢
      rw [hrec]
      exact Nat.mod_add_div (m + 1) 10

/-- digitChar is injective on digits. -/
theorem digitChar_inj_aux : ∀ d ∈ List.range 10, ∀ e ∈ List.range 10,
    digitChar d = digitChar e → d = e := by decide

/-- digitChar is injective below 10. -/
theorem digitChar_inj (d e : Nat) (hd : d < 10) (he : e < 10)
    (h : digitChar d = digitChar e) : d = e :=
  digitChar_inj_aux d (List.mem_range.mpr hd) e (List.mem_range.mpr he) h

/-- Mapping digitChar over digit lists is injective. -/
theorem map_digitChar_inj : ∀ l1 l2 : List Nat, (∀ d ∈ l1, d < 10) →
    (∀ d ∈ l2, d < 10) → l1.map digitChar = l2.map digitChar → l1 = l2 := by
  intro l1
  induction l1 with
  | nil =>
    intro l2 _ _ h
    cases l2 with
    | nil => rfl
    | cons b t => simp at h
  | cons a l ih =>
    intro l2 h1 h2 h
    cases l2 with
    | nil => simp at h
    | cons b t =>
      simp only [List.map_cons, List.cons.injEq] at h
      have ha := digitChar_inj a b (h1 a (by simp)) (h2 b (by simp)) h.1
      rw [ha, ih t (fun d hd => h1 d (by simp [hd])) (fun d hd => h2 d (by simp [hd])) h.2]

/-- A positive number never renders as "0". -/
theorem decStr_pos_ne_zero (n : Nat) (hn : n ≠ 0) (h : decStr n = "0") : False := by
  have hdata := congrArg String.data h
  simp only [decStr, if_neg hn] at hdata
  have hmap : (decDigits n n).map digitChar = ['0'] := by
    have h2 := congrArg List.reverse hdata
    simpa using h2
  cases hdig : decDigits n n with
  | nil => rw [hdig] at hmap; simp at hmap
  | cons d t =>
    rw [hdig] at hmap
    simp only [List.map_cons, List.cons.injEq] at hmap
    obtain ⟨hd0, ht⟩ := hmap
    have htnil : t = [] := by
      cases t with
      | nil => rfl
      | cons x xs => simp at ht
    have hdlt : d < 10 := decDigits_lt n n d (by rw [hdig]; simp)
    have hd : d = 0 := digitChar_inj d 0 hdlt (by omega) (by rw [hd0]; rfl)
    have hval := decVal_decDigits n n (Nat.le_refl n)
    rw [hdig, htnil, hd] at hval
    simp [decVal] at hval
    exact hn hval.symm

/-- decStr is injective. -/
theorem decStr_inj (m n : Nat) (h : decStr m = decStr n) : m = n := by
  by_cases hm : m = 0 <;> by_cases hn : n = 0
  · omega
  · subst hm
    exact (decStr_pos_ne_zero n hn h.symm).elim
  · subst hn
    exact (decStr_pos_ne_zero m hm h).elim
  · have hdata := congrArg String.data h
    simp only [decStr, if_neg hm, if_neg hn] at hdata
    have hmap := List.reverse_inj.mp hdata
    have hdig := map_digitChar_inj _ _ (decDigits_lt m m) (decDigits_lt n n) hmap
    have hv1 := decVal_decDigits m m (Nat.le_refl m)
    have hv2 := decVal_decDigits n n (Nat.le_refl n)
    rw [← hv1, ← hv2, hdig]

/-! ### Candidate names: injectivity and freshness of the resolver -/

/-- Distinct counters give distinct candidate names. -/
theorem candName_inj (base ext : String) (i j : Nat)
    (h : candName base ext i = candName base ext j) : i = j := by
  have hdata := congrArg String.data h
  simp only [candName, String.data_append] at hdata
  have h1 := List.append_cancel_right hdata
  have h2 := List.append_cancel_left h1
  exact decStr_inj i j (String.ext h2)

/-- Candidate names are never the empty string. -/
theorem candName_ne_empty (base ext : String) (k : Nat) : candName base ext k ≠ "" := by
  intro h
  have hdata := congrArg String.data h
  have hu : ("_" : String).data = ['_'] := rfl
  simp only [candName, String.data_append, hu] at hdata
  simp [List.append_eq_nil] at hdata

/-- A name whose path does not exist is not among the directory entries. -/
theorem pathExists_false_not_mem (names : List String) (s : String)
    (h : pathExists names s = false) : s ∉ names := by
  simp only [pathExists, Bool.or_eq_false_iff] at h
  intro hmem
  have : names.contains s = true := by simpa using hmem
  rw [this] at h
  exact absurd h.1 (by simp)

/-- A nonempty name whose path exists is among the directory entries. -/
theorem pathExists_true_mem (names : List String) (s : String) (hne : s ≠ "")
    (h : pathExists names s = true) : s ∈ names := by
  simp only [pathExists, Bool.or_eq_true] at h
  rcases h with h | h
  · simpa using h
  · exact absurd (by simpa using h) hne

/-- If some candidate within the fuel window is free, the loop returns a
free name. -/
theorem resolveFrom_not_exists (base ext : String) (names : List String) :
    ∀ fuel k, (∃ j, k ≤ j ∧ j < k + fuel + 1 ∧
        pathExists names (candName base ext j) = false) →
      pathExists names (resolveFrom base ext names fuel k) = false := by
  intro fuel
  induction fuel with
  | zero =>
    intro k ⟨j, hkj, hjlt, hfree⟩
    have hj : j = k := by omega
    subst hj
    exact hfree
  | succ fuel ih =>
    intro k ⟨j, hkj, hjlt, hfree⟩
    simp only [resolveFrom]
    split
    case isTrue hcoll =>
      apply ih (k + 1)
      refine ⟨j, ?_, by omega, hfree⟩
      rcases Nat.eq_or_lt_of_le hkj with heq | hlt
      · subst heq
        rw [hfree] at hcoll
        exact absurd hcoll (by simp)
      · omega
    case isFalse hfreek =>
      simpa using hfreek

/-- Pigeonhole: among names.length + 2 consecutive candidates one is free. -/
theorem exists_free_cand (base ext : String) (names : List String) (k : Nat) :
    ∃ j, k ≤ j ∧ j < k + names.length + 2 ∧
      pathExists names (candName base ext j) = false := by
  by_contra hall
  push_neg at hall
  have hmem : ∀ j ∈ Finset.Ico k (k + names.length + 2), candName base ext j ∈ names := by
    intro j hj
    rw [Finset.mem_Ico] at hj
    have h1 := hall j hj.1 hj.2
    have h2 : pathExists names (candName base ext j) = true := by
      cases hpe : pathExists names (candName base ext j)
      · exact absurd hpe h1
      · rfl
    exact pathExists_true_mem _ _ (candName_ne_empty base ext j) h2
  have hinj : Set.InjOn (candName base ext) (Finset.Ico k (k + names.length + 2)) :=
    fun a _ b _ hab => candName_inj base ext a b hab
  have hsub : (Finset.Ico k (k + names.length + 2)).image (candName base ext) ⊆
      names.toFinset := by
    intro s hs
    rw [Finset.mem_image] at hs
    obtain ⟨j, hj, rfl⟩ := hs
    rw [List.mem_toFinset]
    exact hmem j hj
  have hcard := Finset.card_le_card hsub
  rw [Finset.card_image_of_injOn hinj, Nat.card_Ico] at hcard
  have := List.toFinset_card_le names
  omega

/-- The resolver's result never exists in the directory (and is nonempty). -/
theorem resolveName_fresh (filename : String) (names : List String) :
    pathExists names (resolveName filename names) = false := by
  simp only [resolveName]
  split
  case isTrue h =>
    apply resolveFrom_not_exists
    obtain ⟨j, h1, h2, h3⟩ :=
      exists_free_cand (splitext filename).1 (splitext filename).2 names 1
    exact ⟨j, h1, by omega, h3⟩
  case isFalse h =>
    simpa using h

/-- The loop returns the first free candidate at or after its start. -/
theorem resolveFrom_shape (base ext : String) (names : List String) :
    ∀ fuel k, ∃ j, k ≤ j ∧ resolveFrom base ext names fuel k = candName base ext j ∧
      ∀ i, k ≤ i → i < j → pathExists names (candName base ext i) = true := by
  intro fuel
  induction fuel with
  | zero =>
    intro k
    exact ⟨k, Nat.le_refl k, rfl, fun i h1 h2 => absurd h2 (by omega)⟩
  | succ fuel ih =>
    intro k
    simp only [resolveFrom]
    split
    case isTrue hcoll =>
      obtain ⟨j, hkj, hres, hmin⟩ := ih (k + 1)
      refine ⟨j, by omega, hres, ?_⟩
      intro i h1 h2
      rcases Nat.eq_or_lt_of_le h1 with heq | hlt
      · subst heq
        exact hcoll
      · exact hmin i hlt h2
    case isFalse hfree =>
      exact ⟨k, Nat.le_refl k, rfl, fun i h1 h2 => absurd h2 (by omega)⟩

/-! ### splitext structure and extension preservation -/

/-- rfindDot across an append: the right part wins when it has a dot. -/
theorem rfindDot_append (xs ys : List Char) :
    rfindDot (xs ++ ys) =
      match rfindDot ys with
      | some i => some (xs.length + i)
      | none => rfindDot xs := by
  induction xs with
  | nil =>
    simp only [List.nil_append, List.length_nil]
    cases rfindDot ys with
    | some i => simp
    | none => rfl
  | cons c cs ih =>
    rw [List.cons_append]
    simp only [rfindDot]
    rw [ih]
    cases hys : rfindDot ys with
    | some i =>
      simp only [List.length_cons]
      congr 1
      omega
    | none => rfl

/-- rfindDot finds nothing iff there is no dot. -/
theorem rfindDot_eq_none_iff (l : List Char) : rfindDot l = none ↔ '.' ∉ l := by
  induction l with
  | nil => simp [rfindDot]
  | cons c cs ih =>
    simp only [rfindDot, List.mem_cons]
    cases hcs : rfindDot cs with
    | some i =>
      have hmem : '.' ∈ cs := by
        by_contra hmem
        exact Option.some_ne_none i (hcs.symm.trans (ih.mpr hmem))
      simp [hmem]
    | none =>
      have hnot : '.' ∉ cs := ih.mp hcs
      by_cases hc : c = '.'
      · subst hc
        simp
      · have hc2 : ¬('.' = c) := fun h => hc h.symm
        simp [hc, hnot, hc2]

/-- A successful rfindDot decomposes the list at its last dot. -/
theorem rfindDot_some_decomp (l : List Char) (i : Nat) (h : rfindDot l = some i) :
    ∃ pre post, l = pre ++ '.' :: post ∧ pre.length = i ∧ '.' ∉ post := by
  induction l generalizing i with
  | nil => simp [rfindDot] at h
  | cons c cs ih =>
    simp only [rfindDot] at h
    cases hcs : rfindDot cs with
    | some j =>
      rw [hcs] at h
      simp only [Option.some.injEq] at h
      obtain ⟨pre, post, hl, hlen, hpost⟩ := ih j hcs
      exact ⟨c :: pre, post, by rw [hl]; rfl, by simp [hlen]; omega, hpost⟩
    | none =>
      rw [hcs] at h
      by_cases hc : c = '.'
      · rw [if_pos hc] at h
        simp only [Option.some.injEq] at h
        exact ⟨[], cs, by rw [hc]; rfl, by simp [← h], (rfindDot_eq_none_iff cs).mp hcs⟩
      · rw [if_neg hc] at h
        simp at h

/-- The head of a dropWhile result fails the predicate. -/
theorem dropWhile_head_not (p : Char → Bool) (l : List Char) (c : Char)
    (h : (l.dropWhile p).head? = some c) : p c = false := by
  induction l with
  | nil => simp at h
  | cons a l ih =>
    rw [List.dropWhile_cons] at h
    split at h
    · exact ih h
    · next hpa =>
      simp only [List.head?_cons, Option.some.injEq] at h
      subst h
      simpa using hpa

/-- rstripChars either empties the list or keeps its head. -/
theorem rstripChars_head (p : Char → Bool) (l : List Char) :
    rstripChars p l = [] ∨ (rstripChars p l).head? = l.head? := by
  cases l with
  | nil => exact Or.inl rfl
  | cons c cs =>
    simp only [rstripChars]
    cases rstripChars p cs with
    | nil =>
      by_cases hpc : p c = true
      · rw [if_pos hpc]
        exact Or.inl rfl
      · rw [if_neg hpc]
        exact Or.inr rfl
    | cons r rs => exact Or.inr rfl

/-- The head of a stripChars result fails the predicate. -/
theorem stripChars_head (p : Char → Bool) (l : List Char) (c : Char)
    (h : (stripChars p l).head? = some c) : p c = false := by
  unfold stripChars at h
  rcases rstripChars_head p (l.dropWhile p) with hnil | hhead
  · rw [hnil] at h
    simp at h
  · rw [hhead] at h
    exact dropWhile_head_not p l c h

/-- secure_filename output never starts with a dot (strip("._")). -/
theorem secureFilename_head_not_dot (s : String) (c : Char)
    (h : (secureFilename s).data.head? = some c) : c ≠ '.' := by
  intro hc
  subst hc
  have h2 : (stripChars (fun c => c == '.' || c == '_') (preStripName s)).head? =
      some '.' := h
  have h3 := stripChars_head _ _ _ h2
  simp at h3

/-- Everything rstripChars keeps was in the input. -/
theorem rstripChars_subset (p : Char → Bool) (l : List Char) :
    ∀ c ∈ rstripChars p l, c ∈ l := by
  induction l with
  | nil => simp [rstripChars]
  | cons a l ih =>
    intro c hc
    simp only [rstripChars] at hc
    cases hl : rstripChars p l with
    | nil =>
      rw [hl] at hc
      by_cases hpa : p a = true
      · rw [if_pos hpa] at hc
        simp at hc
      · rw [if_neg hpa] at hc
        rcases List.mem_singleton.mp hc with rfl
        exact List.mem_cons_self c l
    | cons r rs =>
      rw [hl] at hc
      rcases List.mem_cons.mp hc with rfl | hc2
      · exact List.mem_cons_self c l
      · exact List.mem_cons_of_mem a (ih c (by rw [hl]; exact hc2))

/-- Everything stripChars keeps was in the input. -/
theorem stripChars_subset (p : Char → Bool) (l : List Char) :
    ∀ c ∈ stripChars p l, c ∈ l :=
  fun c hc => (List.dropWhile_sublist p).mem (rstripChars_subset p _ c hc)

/-- Every character of a secure_filename output is in [A-Za-z0-9_.-]. -/
theorem secureFilename_allowed (s : String) :
    ∀ c ∈ (secureFilename s).data, charAllowed c = true := by
  intro c hc
  have h1 : c ∈ preStripName s := stripChars_subset _ _ c hc
  exact List.of_mem_filter h1

/-- digitChar outputs digits, hence never a dot. -/
theorem digitChar_ne_dot (d : Nat) : digitChar d ≠ '.' := by
  unfold digitChar
  repeat' split
  all_goals decide

/-- digitChar outputs belong to the sanitizer's allowed set. -/
theorem digitChar_allowed (d : Nat) : charAllowed (digitChar d) = true := by
  unfold digitChar
  repeat' split
  all_goals decide

/-- Every character of a decStr rendering is some digitChar. -/
theorem decStr_mem (n : Nat) (c : Char) (hc : c ∈ (decStr n).data) :
    ∃ d, c = digitChar d := by
  by_cases hn : n = 0
  · subst hn
    simp only [decStr, if_pos rfl] at hc
    rcases List.mem_singleton.mp hc with rfl
    exact ⟨0, rfl⟩
  · simp only [decStr, if_neg hn] at hc
    rw [List.mem_reverse, List.mem_map] at hc
    obtain ⟨d, _, hd⟩ := hc
    exact ⟨d, hd.symm⟩

/-- decStr renderings contain no dot. -/
theorem decStr_no_dot (n : Nat) : ∀ c ∈ (decStr n).data, c ≠ '.' := by
  intro c hc
  obtain ⟨d, rfl⟩ := decStr_mem n c hc
  exact digitChar_ne_dot d

/-- splitext of a string with no leading dot: either there is no dot and no
split happens, or the string splits at its last dot. -/
theorem splitext_spec (s : String) (hhead : ∀ c, s.data.head? = some c → c ≠ '.') :
    ((splitext s).1.data = s.data ∧ (splitext s).2.data = [] ∧ '.' ∉ s.data) ∨
    (∃ pre post, s.data = pre ++ '.' :: post ∧ '.' ∉ post ∧
      (splitext s).1.data = pre ∧ (splitext s).2.data = '.' :: post) := by
  cases hfd : rfindDot s.data with
  | none =>
    left
    have hnd := (rfindDot_eq_none_iff _).mp hfd
    refine ⟨?_, ?_, hnd⟩
    · show (splitextData s.data).1 = s.data
      simp [splitextData, hfd]
    · show (splitextData s.data).2 = []
      simp [splitextData, hfd]
  | some i =>
    right
    obtain ⟨pre, post, hl, hlen, hpost⟩ := rfindDot_some_decomp _ i hfd
    have htake : s.data.take i = pre := by
      rw [hl, ← hlen]
      exact List.take_left pre _
    have hdrop : s.data.drop i = '.' :: post := by
      rw [hl, ← hlen]
      exact List.drop_left pre _
    have hprene : pre ≠ [] := by
      intro h0
      exact absurd rfl (hhead '.' (by rw [hl, h0]; rfl))
    have hall : (s.data.take i).all (fun x => x == '.') = false := by
      rw [htake]
      cases hpre : pre with
      | nil => exact absurd hpre hprene
      | cons c pre2 =>
        have hc : c ≠ '.' := hhead c (by rw [hl, hpre]; rfl)
        simp [hc]
    refine ⟨pre, post, hl, hpost, ?_, ?_⟩
    · show (splitextData s.data).1 = pre
      simp only [splitextData, hfd]
      rw [if_neg (by rw [hall]; simp), htake]
    · show (splitextData s.data).2 = '.' :: post
      simp only [splitextData, hfd]
      rw [if_neg (by rw [hall]; simp), hdrop]

/-- Splitting a candidate name built from the parts of a no-leading-dot
name gives back exactly the original extension. -/
theorem splitext_candName (s : String) (hhead : ∀ c, s.data.head? = some c → c ≠ '.')
    (k : Nat) :
    extOf (candName (splitext s).1 (splitext s).2 k) = (splitext s).2 := by
  have hu : ("_" : String).data = ['_'] := rfl
  rcases splitext_spec s hhead with ⟨h1, h2, hnd⟩ | ⟨pre, post, hl, hpost, h1, h2⟩
  · -- no extension: the candidate has no dot either
    have hdata : (candName (splitext s).1 (splitext s).2 k).data =
        s.data ++ '_' :: (decStr k).data := by
      simp [candName, String.data_append, h1, h2, hu]
    have hnodot : '.' ∉ (candName (splitext s).1 (splitext s).2 k).data := by
      rw [hdata]
      intro hmem
      rcases List.mem_append.mp hmem with hm | hm
      · exact hnd hm
      · rcases List.mem_cons.mp hm with he | hm2
        · exact absurd he (by decide)
        · exact decStr_no_dot k '.' hm2 rfl
    have hfd := (rfindDot_eq_none_iff _).mpr hnodot
    apply String.ext
    show (splitextData ((candName (splitext s).1 (splitext s).2 k).data)).2 =
      (splitext s).2.data
    simp [splitextData, hfd, h2]
  · -- extension '.'::post: the candidate splits at the same dot
    set xs := pre ++ '_' :: (decStr k).data with hxs
    have hdata : (candName (splitext s).1 (splitext s).2 k).data =
        xs ++ '.' :: post := by
      simp [candName, String.data_append, h1, h2, hu, hxs]
    have hxs_all : xs.all (fun c => c == '.') = false := by
      cases hb : xs.all (fun c => c == '.')
      · rfl
      · have hmem : ('_' : Char) ∈ xs := by simp [hxs]
        have := List.all_eq_true.mp hb '_' hmem
        simp at this
    have hfind : rfindDot ((candName (splitext s).1 (splitext s).2 k).data) =
        some xs.length := by
      rw [hdata, rfindDot_append]
      simp [rfindDot, (rfindDot_eq_none_iff post).mpr hpost]
    have hcond : ¬((((candName (splitext s).1 (splitext s).2 k).data).take
        xs.length).all (fun c => c == '.') = true) := by
      rw [hdata, List.take_left, hxs_all]
      simp
    have hsp : splitextData ((candName (splitext s).1 (splitext s).2 k).data) =
        (xs, '.' :: post) := by
      simp only [splitextData, hfind]
      rw [if_neg hcond]
      rw [hdata, List.take_left, List.drop_left]
    apply String.ext
    show (splitextData ((candName (splitext s).1 (splitext s).2 k).data)).2 =
      (splitext s).2.data
    rw [hsp, h2]

/-! ### Claim theorems -/

/-- C1: the spec demands that a CreateFile with a filename whose extension
is outside the accepted set fail with UnsupportedTypeError and leave both
stores unchanged.  The code defines allowed_file (exactly the accepted set)
but never calls it on the locker upload path: uploading "virus.exe" from a
fresh deployment succeeds with 201, writes the blob and inserts the
metadata record. -/
theorem createFile_accepts_virus_exe :
    allowedFile "virus.exe" = false ∧
    isCreated (addLockerFile emptyState "u1" "virus.exe" none
      "application/x-msdownload" [] 0).1 = true ∧
    (addLockerFile emptyState "u1" "virus.exe" none
      "application/x-msdownload" [] 0).2 =
      [Effect.writeBlob "virus.exe",
       Effect.insertMeta [("user_id", .pstr "u1"), ("type", .pstr "file"),
         ("title", .pstr "virus.exe"), ("file_path", .pstr "/uploads/virus.exe"),
         ("mime", .pstr "application/x-msdownload"), ("tags", .plist []),
         ("created_at", .pdatetime 0), ("_id", .pobjectId 0)]] ∧
    (execEffects emptyState (addLockerFile emptyState "u1" "virus.exe" none
      "application/x-msdownload" [] 0).2).uploads = ["virus.exe"] ∧
    (execEffects emptyState (addLockerFile emptyState "u1" "virus.exe" none
      "application/x-msdownload" [] 0).2).locker.length = 1 :=
  ⟨rfl, rfl, rfl, rfl, rfl⟩

/-- C2: a Register whose normalized (trimmed, case-folded) email equals the
email of a stored account, and which passes the earlier field validations,
fails with the duplicate-email response (409) and leaves the users
collection unchanged. -/
theorem register_duplicate_email (hash : String → String) (users : List UserDoc)
    (nextId : Nat) (nameIn emailIn passwordIn : Option String) (now : Nat)
    (u : UserDoc) (hu : u ∈ users)
    (hemail : lowerStr (pyStrip (emailIn.getD "")) = u.email)
    (hname : pyStrip (nameIn.getD "") ≠ "")
    (hat : pyContains (lowerStr (pyStrip (emailIn.getD ""))) '@' = true)
    (hlen : 6 ≤ (passwordIn.getD "").length) :
    register hash users nextId nameIn emailIn passwordIn now =
      (.failure "Email already registered" 409, users) := by
  have hmail_ne : lowerStr (pyStrip (emailIn.getD "")) ≠ "" := by
    intro h0
    rw [h0] at hat
    exact absurd hat (by decide)
  have hpw_ne : passwordIn.getD "" ≠ "" := by
    intro h0
    rw [h0] at hlen
    exact absurd hlen (by decide)
  have hany : users.any (fun v => v.email == lowerStr (pyStrip (emailIn.getD ""))) = true := by
    rw [List.any_eq_true]
    exact ⟨u, hu, by rw [hemail, beq_self_eq_true]⟩
  simp only [register, usersInsertOne]
  rw [if_neg (by push_neg; exact ⟨hname, hmail_ne, hpw_ne⟩)]
  rw [if_neg (by simp [hat])]
  rw [if_neg (by omega)]
  simp [hany]

/-- Witness for register_duplicate_email at a concrete store and call. -/
theorem register_duplicate_email_witness :
    register (fun p => "H:" ++ p) [⟨"Alice", "a@x.com", "H:secret1", none, 0, 0⟩] 1
      (some "Bob") (some " A@X.com ") (some "hunter22") 5 =
      (.failure "Email already registered" 409,
        [⟨"Alice", "a@x.com", "H:secret1", none, 0, 0⟩]) :=
  register_duplicate_email (fun p => "H:" ++ p) _ 1 _ _ _ 5
    ⟨"Alice", "a@x.com", "H:secret1", none, 0, 0⟩ (by decide) (by decide) (by decide)
    (by decide) (by decide)

/-- C3: the spec requires every serialized item crossing the boundary to be
a mapping of exactly the nine primitive fields, with the internal
identifier and timestamp types never leaking.  The CreateNote response dict
violates this: pymongo's insert_one leaves the raw ObjectId under the _id
key, created_at stays a raw datetime rather than an ISO string, and the
per-kind null fields (file_path, mime) are absent. -/
theorem createNote_response_leaks_internal_types :
    (addLockerNote emptyState "u1" (some "t") (some "hello") [] 7).1 =
      .created [("user_id", .pstr "u1"), ("type", .pstr "note"), ("title", .pstr "t"),
        ("content", .pstr "hello"), ("tags", .plist []), ("created_at", .pdatetime 7),
        ("_id", .pobjectId 0), ("id", .pstr "0")] 201 ∧
    lookupVal [("user_id", PyVal.pstr "u1"), ("type", .pstr "note"), ("title", .pstr "t"),
        ("content", .pstr "hello"), ("tags", .plist []), ("created_at", .pdatetime 7),
        ("_id", .pobjectId 0), ("id", .pstr "0")] "_id" = some (.pobjectId 0) ∧
    primTop (pyGet [("user_id", PyVal.pstr "u1"), ("type", .pstr "note"), ("title", .pstr "t"),
        ("content", .pstr "hello"), ("tags", .plist []), ("created_at", .pdatetime 7),
        ("_id", .pobjectId 0), ("id", .pstr "0")] "_id") = false ∧
    primTop (pyGet [("user_id", PyVal.pstr "u1"), ("type", .pstr "note"), ("title", .pstr "t"),
        ("content", .pstr "hello"), ("tags", .plist []), ("created_at", .pdatetime 7),
        ("_id", .pobjectId 0), ("id", .pstr "0")] "created_at") = false ∧
    lookupVal [("user_id", PyVal.pstr "u1"), ("type", .pstr "note"), ("title", .pstr "t"),
        ("content", .pstr "hello"), ("tags", .plist []), ("created_at", .pdatetime 7),
        ("_id", .pobjectId 0), ("id", .pstr "0")] "file_path" = none :=
  ⟨rfl, rfl, rfl, rfl, rfl⟩

/-- C9: the login failure for an unknown email and the login failure for a
known email with a wrong password are the same response (same message,
same status code), so the response does not reveal whether the email is
registered. -/
theorem login_failure_indistinguishable (check : String → String → Bool)
    (users : List UserDoc) (e1 p1 e2 p2 : Option String) (u : UserDoc)
    (he1 : lowerStr (pyStrip (e1.getD "")) ≠ "") (hp1 : p1.getD "" ≠ "")
    (hnone : users.find? (fun v => v.email == lowerStr (pyStrip (e1.getD ""))) = none)
    (he2 : lowerStr (pyStrip (e2.getD "")) ≠ "") (hp2 : p2.getD "" ≠ "")
    (hsome : users.find? (fun v => v.email == lowerStr (pyStrip (e2.getD ""))) = some u)
    (hwrong : check u.password (p2.getD "") = false) :
    login check users e1 p1 = login check users e2 p2 ∧
    login check users e1 p1 = .failure "Invalid credentials" 401 := by
  have hA : login check users e1 p1 = .failure "Invalid credentials" 401 := by
    simp only [login]
    rw [if_neg (by push_neg; exact ⟨he1, hp1⟩)]
    rw [hnone]
  have hB : login check users e2 p2 = .failure "Invalid credentials" 401 := by
    simp only [login]
    rw [if_neg (by push_neg; exact ⟨he2, hp2⟩)]
    rw [hsome]
    simp [hwrong]
  exact ⟨hA.trans hB.symm, hA⟩

/-- Witness for login_failure_indistinguishable at a concrete store. -/
theorem login_failure_indistinguishable_witness :
    login (fun _ _ => false) [⟨"Alice", "a@x.com", "H:secret1", none, 0, 0⟩]
      (some "b@x.com") (some "pw") =
    login (fun _ _ => false) [⟨"Alice", "a@x.com", "H:secret1", none, 0, 0⟩]
      (some "A@X.com") (some "wrong") ∧
    login (fun _ _ => false) [⟨"Alice", "a@x.com", "H:secret1", none, 0, 0⟩]
      (some "b@x.com") (some "pw") = .failure "Invalid credentials" 401 :=
  login_failure_indistinguishable (fun _ _ => false) _ _ _ _ _
    ⟨"Alice", "a@x.com", "H:secret1", none, 0, 0⟩
    (by decide) (by decide) (by decide) (by decide) (by decide) (by decide) rfl

/-- C10: both create operations ignore any caller-supplied tags (the
handlers never read a tags field): the response is independent of the
request's tags value, and the stored document and serialized item always
carry the empty tags array. -/
theorem created_items_tags_empty (st1 st2 : AppState) (u1 u2 : String)
    (title content fTitle : Option String) (f m : String)
    (tagsA tagsB tagsC : List PyVal) (now1 now2 : Nat)
    (item1 item2 : Doc) (c1 c2 : Nat) (es1 es2 : List Effect)
    (h1 : addLockerNote st1 u1 title content tagsA now1 = (.created item1 c1, es1))
    (h2 : addLockerFile st2 u2 f fTitle m tagsB now2 = (.created item2 c2, es2)) :
    addLockerNote st1 u1 title content tagsC now1 = (.created item1 c1, es1) ∧
    addLockerFile st2 u2 f fTitle m tagsC now2 = (.created item2 c2, es2) ∧
    lookupVal item1 "tags" = some (.plist []) ∧
    lookupVal item2 "tags" = some (.plist []) ∧
    (∀ d, Effect.insertMeta d ∈ es1 → lookupVal d "tags" = some (.plist [])) ∧
    (∀ d, Effect.insertMeta d ∈ es2 → lookupVal d "tags" = some (.plist [])) := by
  refine ⟨h1, h2, ?_, ?_, ?_, ?_⟩
  · simp only [addLockerNote] at h1
    split at h1
    · simp at h1
    · simp only [Prod.mk.injEq, LockerResult.created.injEq] at h1
      obtain ⟨⟨hitem, -⟩, -⟩ := h1
      rw [← hitem]
      rfl
  · simp only [addLockerFile] at h2
    split at h2
    · simp at h2
    · simp only [Prod.mk.injEq, LockerResult.created.injEq] at h2
      obtain ⟨⟨hitem, -⟩, -⟩ := h2
      rw [← hitem]
      rfl
  · simp only [addLockerNote] at h1
    split at h1
    · simp at h1
    · simp only [Prod.mk.injEq, LockerResult.created.injEq] at h1
      obtain ⟨-, hes⟩ := h1
      intro d hd
      rw [← hes] at hd
      simp at hd
      subst hd
      rfl
  · simp only [addLockerFile] at h2
    split at h2
    · simp at h2
    · simp only [Prod.mk.injEq, LockerResult.created.injEq] at h2
      obtain ⟨-, hes⟩ := h2
      intro d hd
      rw [← hes] at hd
      simp at hd
      subst hd
      rfl

/-- Witness for created_items_tags_empty at concrete calls. -/
theorem created_items_tags_empty_witness :
    lookupVal [("user_id", PyVal.pstr "u1"), ("type", .pstr "note"), ("title", .pstr "t"),
      ("content", .pstr "hello"), ("tags", .plist []), ("created_at", .pdatetime 7),
      ("_id", .pobjectId 0), ("id", .pstr "0")] "tags" = some (.plist []) ∧
    lookupVal [("user_id", PyVal.pstr "u2"), ("type", .pstr "file"), ("title", .pstr "a.txt"),
      ("file_path", .pstr "/uploads/a.txt"), ("mime", .pstr "text/plain"),
      ("tags", .plist []), ("created_at", .pdatetime 8),
      ("_id", .pobjectId 0), ("id", .pstr "0")] "tags" = some (.plist []) :=
  have h := created_items_tags_empty emptyState emptyState "u1" "u2"
    (some "t") (some "hello") none "a.txt" "text/plain"
    [PyVal.pstr "x"] [PyVal.pstr "y"] [] 7 8 _ _ 201 201 _ _ rfl rfl
  ⟨h.2.2.1, h.2.2.2.1⟩

/-- C7: DeleteItem returns the 404 Not-found response when no document
matches the identifier; when a document matches (the stored _id values
being unique), the delete succeeds for both outcomes of the blob-removal
attempt (a failed os.remove is swallowed), the metadata record is removed
afterwards, and a second delete of the same identifier returns 404 and
never a storage fault. -/
theorem deleteItem_spec (st : AppState) (itemId : Nat) (rm1 rm2 : Bool)
    (huniq : st.locker.countP (hasId itemId) ≤ 1) :
    (st.locker.find? (hasId itemId) = none →
      deleteLockerItem st itemId rm1 = (.failure "Not found" 404, [])) ∧
    (∀ obj, st.locker.find? (hasId itemId) = some obj →
      ∃ es, deleteLockerItem st itemId rm1 = (.ok 200, es) ∧
        (execEffects st es).locker = st.locker.eraseP (hasId itemId) ∧
        (execEffects st es).locker.find? (hasId itemId) = none ∧
        deleteLockerItem (execEffects st es) itemId rm2 =
          (.failure "Not found" 404, [])) := by
  have herased : ∀ X : AppState, X.locker = st.locker.eraseP (hasId itemId) →
      X.locker.find? (hasId itemId) = none ∧
      deleteLockerItem X itemId rm2 = (.failure "Not found" 404, []) := by
    intro X hX
    have hnone : X.locker.find? (hasId itemId) = none := by
      rw [hX]
      exact find?_eraseP_eq_none _ _ huniq
    exact ⟨hnone, by simp only [deleteLockerItem, hnone]⟩
  constructor
  · intro hnone
    simp only [deleteLockerItem, hnone]
  · intro obj hobj
    cases hbn : blobNameOf obj with
    | none =>
      have hlock : (execEffects st [Effect.deleteMeta itemId]).locker =
          st.locker.eraseP (hasId itemId) := rfl
      exact ⟨[.deleteMeta itemId], by simp only [deleteLockerItem, hobj, hbn], hlock,
        (herased _ hlock).1, (herased _ hlock).2⟩
    | some fname =>
      have hlock : (execEffects st [Effect.removeBlob fname rm1,
          Effect.deleteMeta itemId]).locker = st.locker.eraseP (hasId itemId) := by
        simp only [execEffects, List.foldl, execEffect]
        split <;> rfl
      exact ⟨[.removeBlob fname rm1, .deleteMeta itemId],
        by simp only [deleteLockerItem, hobj, hbn], hlock,
        (herased _ hlock).1, (herased _ hlock).2⟩

/-- A concrete one-file state for the delete witness. -/
def sampleFileState : AppState :=
  ⟨["a.txt"],
   [[("user_id", .pstr "u1"), ("type", .pstr "file"), ("title", .pstr "a.txt"),
     ("file_path", .pstr "/uploads/a.txt"), ("mime", .pstr "text/plain"),
     ("tags", .plist []), ("created_at", .pdatetime 0), ("_id", .pobjectId 0)]],
   [], 1⟩

/-- Witness for deleteItem_spec: a delete whose os.remove attempt fails
still removes the metadata, and re-deleting yields 404. -/
theorem deleteItem_spec_witness :
    ∃ es, deleteLockerItem sampleFileState 0 false = (.ok 200, es) ∧
      (execEffects sampleFileState es).locker =
        sampleFileState.locker.eraseP (hasId 0) ∧
      (execEffects sampleFileState es).locker.find? (hasId 0) = none ∧
      deleteLockerItem (execEffects sampleFileState es) 0 true =
        (.failure "Not found" 404, []) :=
  (deleteItem_spec sampleFileState 0 false true (by decide)).2 _ rfl

/-- C5: for every requested filename and every current directory content,
the collision-resolution code returns a name whose path does not exist —
in particular a name not in the directory's name set — preserving the
extension of the sanitized name, and derived deterministically: the
unsuffixed sanitized name itself when its path does not already exist,
otherwise the first free candidate base_k ext for k = 1, 2, ... (every
earlier candidate colliding). -/
theorem nameResolver_spec (requested : String) (names : List String) :
    resolveName (secureFilename requested) names ∉ names ∧
    pathExists names (resolveName (secureFilename requested) names) = false ∧
    extOf (resolveName (secureFilename requested) names) =
      extOf (secureFilename requested) ∧
    (pathExists names (secureFilename requested) = false →
      resolveName (secureFilename requested) names = secureFilename requested) ∧
    (pathExists names (secureFilename requested) = true →
      ∃ k, 1 ≤ k ∧
        resolveName (secureFilename requested) names =
          candName (splitext (secureFilename requested)).1
            (splitext (secureFilename requested)).2 k ∧
        ∀ i, 1 ≤ i → i < k →
          pathExists names (candName (splitext (secureFilename requested)).1
            (splitext (secureFilename requested)).2 i) = true) := by
  have hfresh := resolveName_fresh (secureFilename requested) names
  have hhead : ∀ c, (secureFilename requested).data.head? = some c → c ≠ '.' :=
    fun c hc => secureFilename_head_not_dot requested c hc
  refine ⟨pathExists_false_not_mem names _ hfresh, hfresh, ?_, ?_, ?_⟩
  · by_cases hpe : pathExists names (secureFilename requested) = true
    · simp only [resolveName, if_pos hpe]
      obtain ⟨j, hj1, hres, hmin⟩ := resolveFrom_shape (splitext (secureFilename requested)).1
        (splitext (secureFilename requested)).2 names (names.length + 1) 1
      rw [hres]
      exact splitext_candName (secureFilename requested) hhead j
    · simp only [resolveName, if_neg hpe]
  · intro hfalse
    have hne : ¬(pathExists names (secureFilename requested) = true) := by
      rw [hfalse]
      simp
    simp only [resolveName, if_neg hne]
  · intro htrue
    simp only [resolveName, if_pos htrue]
    obtain ⟨j, hj1, hres, hmin⟩ := resolveFrom_shape (splitext (secureFilename requested)).1
      (splitext (secureFilename requested)).2 names (names.length + 1) 1
    exact ⟨j, hj1, hres, hmin⟩

/-- Witness for nameResolver_spec: resolving "report.pdf" against a
directory already holding report.pdf and report_1.pdf. -/
theorem nameResolver_spec_witness :
    resolveName (secureFilename "report.pdf") ["report.pdf", "report_1.pdf"] ∉
      ["report.pdf", "report_1.pdf"] ∧
    extOf (resolveName (secureFilename "report.pdf") ["report.pdf", "report_1.pdf"]) =
      extOf (secureFilename "report.pdf") ∧
    (∃ k, 1 ≤ k ∧
      resolveName (secureFilename "report.pdf") ["report.pdf", "report_1.pdf"] =
        candName (splitext (secureFilename "report.pdf")).1
          (splitext (secureFilename "report.pdf")).2 k ∧
      ∀ i, 1 ≤ i → i < k →
        pathExists ["report.pdf", "report_1.pdf"]
          (candName (splitext (secureFilename "report.pdf")).1
            (splitext (secureFilename "report.pdf")).2 i) = true) :=
  ⟨(nameResolver_spec "report.pdf" ["report.pdf", "report_1.pdf"]).1,
   (nameResolver_spec "report.pdf" ["report.pdf", "report_1.pdf"]).2.2.1,
   (nameResolver_spec "report.pdf" ["report.pdf", "report_1.pdf"]).2.2.2.2 (by decide)⟩

/-! ### Slash-freeness of resolved names and basename round-trip -/

/-- The base part of splitext is drawn from the input. -/
theorem splitext_fst_subset (s : String) : ∀ c ∈ (splitext s).1.data, c ∈ s.data := by
  intro c hc
  have hc2 : c ∈ (splitextData s.data).1 := hc
  unfold splitextData at hc2
  split at hc2
  · exact hc2
  · split at hc2
    · exact hc2
    · exact List.take_subset _ s.data hc2

/-- The extension part of splitext is drawn from the input. -/
theorem splitext_snd_subset (s : String) : ∀ c ∈ (splitext s).2.data, c ∈ s.data := by
  intro c hc
  have hc2 : c ∈ (splitextData s.data).2 := hc
  unfold splitextData at hc2
  split at hc2
  · exact absurd hc2 (List.not_mem_nil c)
  · split at hc2
    · exact absurd hc2 (List.not_mem_nil c)
    · exact List.drop_subset _ s.data hc2

/-- Allowed sanitizer characters are never a slash. -/
theorem charAllowed_ne_slash (c : Char) (h : charAllowed c = true) : c ≠ '/' := by
  intro hc
  subst hc
  exact absurd h (by decide)

/-- A resolved name for a sanitized filename contains no slash. -/
theorem resolveName_secure_no_slash (x : String) (names : List String) :
    ∀ c ∈ (resolveName (secureFilename x) names).data, c ≠ '/' := by
  have hu : ("_" : String).data = ['_'] := rfl
  intro c hc
  revert hc
  simp only [resolveName]
  split
  · obtain ⟨j, -, hres, -⟩ := resolveFrom_shape (splitext (secureFilename x)).1
      (splitext (secureFilename x)).2 names (names.length + 1) 1
    rw [hres]
    intro hc
    simp only [candName, String.data_append, List.mem_append, hu,
      List.mem_singleton] at hc
    rcases hc with ((hc | rfl) | hc) | hc
    · exact charAllowed_ne_slash c (secureFilename_allowed x c (splitext_fst_subset _ c hc))
    · decide
    · obtain ⟨d, rfl⟩ := decStr_mem j c hc
      exact charAllowed_ne_slash _ (digitChar_allowed d)
    · exact charAllowed_ne_slash c (secureFilename_allowed x c (splitext_snd_subset _ c hc))
  · intro hc
    exact charAllowed_ne_slash c (secureFilename_allowed x c hc)

/-- takeWhile over an append stops exactly at the first failing element. -/
theorem takeWhile_append_stop (p : Char → Bool) (xs ys : List Char) (y : Char)
    (hxs : ∀ c ∈ xs, p c = true) (hy : p y = false) :
    (xs ++ y :: ys).takeWhile p = xs := by
  induction xs with
  | nil => simp [List.takeWhile_cons, hy]
  | cons a t ih =>
    rw [List.cons_append, List.takeWhile_cons, hxs a (List.mem_cons_self a t)]
    simp only [if_true]
    rw [ih (fun c hc => hxs c (List.mem_cons_of_mem a hc))]

/-- basename recovers a slash-free name stored under the uploads prefix. -/
theorem basename_uploads (s : String) (h : ∀ c ∈ s.data, c ≠ '/') :
    basename ("/uploads/" ++ s) = s := by
  apply String.ext
  show (((("/uploads/" ++ s).data).reverse.takeWhile (fun c => c ≠ '/')).reverse) = s.data
  rw [String.data_append, List.reverse_append]
  have hsplit : ("/uploads/" : String).data.reverse =
      '/' :: ['s', 'd', 'a', 'o', 'l', 'p', 'u', '/'] := rfl
  rw [hsplit]
  rw [takeWhile_append_stop _ _ _ _ ?hall ?hstop]
  · exact List.reverse_reverse s.data
  case hall =>
    intro c hc
    exact decide_eq_true (h c (List.mem_reverse.mp hc))
  case hstop => decide

/-! ### C4 and C6 -/

/-- C4 counterexample: a declared filename that sanitizes to an empty base
name ("../../") is not rejected: the upload is accepted with 201 and a blob
named "_1" is written; no InvalidNameError is produced. -/
theorem sanitizedEmpty_not_rejected :
    secureFilename "../../" = "" ∧
    isCreated (addLockerFile emptyState "u1" "../../" none
      "application/pdf" [] 0).1 = true ∧
    (execEffects emptyState (addLockerFile emptyState "u1" "../../" none
      "application/pdf" [] 0).2).uploads = ["_1"] ∧
    (execEffects emptyState (addLockerFile emptyState "u1" "../../" none
      "application/pdf" [] 0).2).locker.length = 1 :=
  ⟨rfl, rfl, rfl, rfl⟩

/-- C4 amended: the code rejects only the literal empty declared filename
(with the generic "Empty filename" 400 response; no InvalidNameError
exists); a nonempty filename whose sanitized base name is empty proceeds:
a blob named _k (first free k ≥ 1) is written and metadata inserted. -/
theorem sanitizedEmpty_amended (st : AppState) (u f : String)
    (fTitle : Option String) (m : String) (tags : List PyVal) (now : Nat)
    (hne : f ≠ "") (hempty : secureFilename f = "") :
    (∀ st2 u2 fT2 m2 tg2 now2, addLockerFile st2 u2 "" fT2 m2 tg2 now2 =
      (.failure "Empty filename" 400, [])) ∧
    ∃ k item doc, 1 ≤ k ∧
      addLockerFile st u f fTitle m tags now =
        (.created item 201, [.writeBlob ("_" ++ decStr k), .insertMeta doc]) ∧
      ("_" ++ decStr k) ∉ st.uploads := by
  constructor
  · intro st2 u2 fT2 m2 tg2 now2
    rfl
  · have h0 : resolveName "" st.uploads =
        resolveFrom "" "" st.uploads (st.uploads.length + 1) 1 := by
      simp [resolveName, pathExists]
      rfl
    obtain ⟨j, hj1, hres, -⟩ :=
      resolveFrom_shape "" "" st.uploads (st.uploads.length + 1) 1
    have hcand : candName "" "" j = "_" ++ decStr j := by
      apply String.ext
      simp [candName, String.data_append]
    have hrn : resolveName "" st.uploads = "_" ++ decStr j := by
      rw [h0, hres, hcand]
    have hfresh2 := resolveName_fresh "" st.uploads
    rw [hrn] at hfresh2
    simp only [addLockerFile, if_neg hne, hempty, hrn]
    exact ⟨j, _, _, hj1, rfl, pathExists_false_not_mem _ _ hfresh2⟩

/-- Witness for sanitizedEmpty_amended at filename "../../" on a fresh
deployment. -/
theorem sanitizedEmpty_amended_witness :
    ∃ k item doc, 1 ≤ k ∧
      addLockerFile emptyState "u1" "../../" none "application/pdf" [] 0 =
        (.created item 201, [.writeBlob ("_" ++ decStr k), .insertMeta doc]) ∧
      ("_" ++ decStr k) ∉ emptyState.uploads :=
  (sanitizedEmpty_amended emptyState "u1" "../../" none "application/pdf" [] 0
    (by decide) (by decide)).2

/-- The metadata-references-blob invariant: every stored file document
points (via basename of its file_path) at an existing upload. -/
def refsOk (st : AppState) : Prop :=
  ∀ d ∈ st.locker, isFileDoc d = true →
    ∃ p, lookupVal d "file_path" = some (.pstr p) ∧ basename p ∈ st.uploads

/-- C6: every successful CreateFile emits exactly the blob write followed
by the metadata insert (in that order), the inserted document references
the written blob, and the metadata-references-blob invariant holds in the
initial, intermediate and final states of the effect sequence. -/
theorem createFile_blob_before_meta (st : AppState) (u f : String)
    (fTitle : Option String) (m : String) (tags : List PyVal) (now : Nat)
    (item : Doc) (code : Nat) (es : List Effect)
    (h : addLockerFile st u f fTitle m tags now = (.created item code, es))
    (hok : refsOk st) :
    ∃ fname doc, es = [.writeBlob fname, .insertMeta doc] ∧
      lookupVal doc "file_path" = some (.pstr ("/uploads/" ++ fname)) ∧
      ∀ k, refsOk (execEffects st (es.take k)) := by
  simp only [addLockerFile] at h
  split at h
  · simp at h
  · simp only [Prod.mk.injEq] at h
    obtain ⟨-, hes⟩ := h
    refine ⟨resolveName (secureFilename f) st.uploads, _, hes.symm, rfl, ?_⟩
    intro k
    have hnoslash : ∀ c ∈ (resolveName (secureFilename f) st.uploads).data, c ≠ '/' :=
      resolveName_secure_no_slash f st.uploads
    have hbase := basename_uploads (resolveName (secureFilename f) st.uploads) hnoslash
    rw [← hes]
    rcases k with _ | _ | k
    · exact hok
    · intro d hd hfile
      obtain ⟨p, hp, hmem⟩ := hok d hd hfile
      exact ⟨p, hp, List.mem_append_left _ hmem⟩
    · simp only [List.take_succ_cons, List.take_nil]
      intro d hd hfile
      rcases List.mem_append.mp hd with hd2 | hd2
      · obtain ⟨p, hp, hmem⟩ := hok d hd2 hfile
        exact ⟨p, hp, List.mem_append_left _ hmem⟩
      · rcases List.mem_singleton.mp hd2 with rfl
        refine ⟨"/uploads/" ++ resolveName (secureFilename f) st.uploads, rfl, ?_⟩
        rw [hbase]
        exact List.mem_append_right _ (List.mem_singleton.mpr rfl)

/-- Witness for createFile_blob_before_meta on a fresh deployment. -/
theorem createFile_blob_before_meta_witness :
    ∃ fname doc,
      (addLockerFile emptyState "u1" "a.txt" none "text/plain" [] 0).2 =
        [Effect.writeBlob fname, Effect.insertMeta doc] ∧
      lookupVal doc "file_path" = some (.pstr ("/uploads/" ++ fname)) ∧
      ∀ k, refsOk (execEffects emptyState
        ((addLockerFile emptyState "u1" "a.txt" none "text/plain" [] 0).2.take k)) :=
  createFile_blob_before_meta emptyState "u1" "a.txt" none "text/plain" [] 0 _ _ _ rfl
    (fun d hd => absurd hd (List.not_mem_nil d))

/-! ### C8: the list endpoint -/

/-- C8: ListItems returns exactly the locker documents whose user_id equals
the requested user (as a permutation making up the response rows), in
non-increasing created_at order; an unknown user or a user without items
yields the empty list with 200, never an error; and for well-formed stores
(created_at absent or a datetime) the endpoint serializes every row and
answers 200 with one serialized item per matching document. -/
theorem getLockerItems_spec (st : AppState) (u : String) :
    List.Perm (lockerRowsFor st u) (st.locker.filter (userFilter u)) ∧
    List.Pairwise (fun a b => createdKey b ≤ createdKey a) (lockerRowsFor st u) ∧
    (st.locker.filter (userFilter u) = [] → getLockerItems st u = .ok [] 200) ∧
    ((∀ r ∈ st.locker.filter (userFilter u), ∀ v,
        lookupVal r "created_at" = some v → ∃ n, v = PyVal.pdatetime n) →
      ∃ items, getLockerItems st u = .ok items 200 ∧
        (lockerRowsFor st u).mapM serializeRow = some items ∧
        items.length = (st.locker.filter (userFilter u)).length) := by
  have hperm : List.Perm (lockerRowsFor st u) (st.locker.filter (userFilter u)) :=
    List.mergeSort_perm _ _
  refine ⟨hperm, ?_, ?_, ?_⟩
  · have htrans : ∀ a b c : Doc, Nat.ble (createdKey b) (createdKey a) →
        Nat.ble (createdKey c) (createdKey b) →
        Nat.ble (createdKey c) (createdKey a) = true := by
      intro a b c h1 h2
      simp only [Nat.ble_eq] at h1 h2 ⊢
      omega
    have htotal : ∀ a b : Doc, (Nat.ble (createdKey b) (createdKey a) ||
        Nat.ble (createdKey a) (createdKey b)) = true := by
      intro a b
      simp only [Bool.or_eq_true, Nat.ble_eq]
      omega
    have hs := List.sorted_mergeSort htrans htotal (st.locker.filter (userFilter u))
    exact hs.imp (fun h => by simpa [Nat.ble_eq] using h)
  · intro hfilter
    simp only [getLockerItems, lockerRowsFor, sortDescCreated, hfilter,
      List.mergeSort_nil]
    rfl
  · intro hwf
    have hwf2 : ∀ r ∈ lockerRowsFor st u, ∃ out, serializeRow r = some out := by
      intro r hr
      have hrf : r ∈ st.locker.filter (userFilter u) := hperm.mem_iff.mp hr
      have hiso_ne : isoField (lookupVal r "created_at") ≠ none := by
        cases hlv : lookupVal r "created_at" with
        | none => simp [isoField]
        | some v =>
          obtain ⟨n, rfl⟩ := hwf r hrf v hlv
          simp [isoField, isTruthy]
      cases hiso : isoField (lookupVal r "created_at") with
      | none => exact absurd hiso hiso_ne
      | some created =>
        refine ⟨[("id", strOfId (lookupVal r "_id")),
          ("user_id", pyGet r "user_id"), ("type", pyGet r "type"),
          ("title", pyGet r "title"), ("content", pyGet r "content"),
          ("file_path", pyGet r "file_path"), ("mime", pyGet r "mime"),
          ("tags", (lookupVal r "tags").getD (.plist [])),
          ("created_at", created)], ?_⟩
        simp only [serializeRow, hiso]
    obtain ⟨items, hmap, hlen⟩ := mapM_option_total serializeRow (lockerRowsFor st u) hwf2
    refine ⟨items, ?_, hmap, ?_⟩
    · simp only [getLockerItems]
      rw [hmap]
    · rw [hlen]
      exact hperm.length_eq

/-- A small note document for the list witness. -/
def wDoc (uid : String) (t : Nat) (oid : Nat) : Doc :=
  [("user_id", .pstr uid), ("type", .pstr "note"), ("title", .pstr "t"),
   ("content", .pstr "c"), ("tags", .plist []), ("created_at", .pdatetime t),
   ("_id", .pobjectId oid)]

/-- Stored created_at of the witness documents. -/
theorem wDoc_created (uid : String) (t oid : Nat) :
    lookupVal (wDoc uid t oid) "created_at" = some (.pdatetime t) := rfl

/-- A three-document store (two items of u1, one of u2) for the witness. -/
def sampleListState : AppState :=
  ⟨[], [wDoc "u1" 1 0, wDoc "u1" 5 1, wDoc "u2" 3 2], [], 3⟩

/-- Witness for getLockerItems_spec at the sample store. -/
theorem getLockerItems_spec_witness :
    ∃ items, getLockerItems sampleListState "u1" = .ok items 200 ∧
      (lockerRowsFor sampleListState "u1").mapM serializeRow = some items ∧
      items.length = (sampleListState.locker.filter (userFilter "u1")).length :=
  (getLockerItems_spec sampleListState "u1").2.2.2 (by
    intro r hr v hv
    have hr2 : r ∈ [wDoc "u1" 1 0, wDoc "u1" 5 1, wDoc "u2" 3 2] :=
      List.mem_of_mem_filter hr
    simp only [List.mem_cons, List.not_mem_nil, or_false] at hr2
    rcases hr2 with rfl | rfl | rfl
    · have h3 := hv.symm.trans (wDoc_created "u1" 1 0)
      injection h3 with h4
      exact ⟨1, h4⟩
    · have h3 := hv.symm.trans (wDoc_created "u1" 5 1)
      injection h3 with h4
      exact ⟨5, h4⟩
    · have h3 := hv.symm.trans (wDoc_created "u2" 3 2)
      injection h3 with h4
      exact ⟨3, h4⟩)

end FlaskLocker
